import Mathlib

/-!
Shallow embedding of `DBLP.py` (a DBLP conference-paper crawler and
analyzer) and proofs about it.

Modelling conventions:
* Python strings are Lean `String`s; character-level text processing
  (lowercasing, punctuation stripping, whitespace splitting) is done on
  `String.data : List Char`, mirroring Python's per-character semantics.
  The regex class `\w` is modelled on its ASCII fragment
  (alphanumeric or underscore), which covers all inputs the analysis
  claims speak about.
* Python `dict`s built by repeated `d[k] = d.get(k, 0) + 1` (and
  `collections.Counter`) are modelled as insertion-ordered association
  lists with distinct keys (`List (String × Nat)`), updated by `bump`.
* Python float arithmetic in the forecaster is modelled by exact `ℚ`
  arithmetic; `int(x)` (truncation toward zero) is `pythonInt`.
* Functions whose Python body is wrapped in `try/except` where an
  exception can originate from the outside world take that outcome as an
  explicit argument (`FetchOutcome`, the `renderOk` flag).
-/

namespace DBLP

/-- A paper record as built by `get_paper_info`: the five fields written
to the CSV. All fields are strings, `authors` is the "; "-joined author
list, `link` is possibly empty. -/
structure Paper where
  title : String
  authors : String
  year : String
  conference : String
  link : String
deriving DecidableEq, Repr

/-- One entry of the hard-coded `CONFERENCE_CONFIGS` table. -/
structure ConfConfig where
  name : String
  url_pattern : String
  start_year : Nat
  end_year : Nat
deriving DecidableEq, Repr

/-- The hard-coded conference table of the script. -/
def CONFERENCE_CONFIGS : List (String × ConfConfig) :=
  [("aaai", ⟨"AAAI", "https://dblp.org/db/conf/aaai/aaai{year}.html", 2020, 2025⟩),
   ("cvpr", ⟨"CVPR", "https://dblp.org/db/conf/cvpr/cvpr{year}.html", 2020, 2024⟩),
   ("iccv", ⟨"ICCV", "https://dblp.org/db/conf/iccv/iccv{year}.html", 2019, 2023⟩)]

/-- The hard-coded stop-word set `STOP_WORDS`. -/
def STOP_WORDS : List String :=
  ["a", "an", "the", "and", "or", "but", "if", "because", "as", "what",
   "which", "this", "that", "these", "those", "then", "just", "so", "than",
   "such", "both", "through", "about", "for", "is", "of", "while", "during",
   "to", "from", "in", "on", "by", "with", "without", "at", "between"]

/-- A parsed paper entry (`<li class="entry inproceedings">`) as the
extraction loop of `get_paper_info` sees it: the stripped text of the
`span.title` tag if present, the stripped texts of the author name
spans, and the `href` values of the anchor tags that carry one, in
document order. -/
structure Entry where
  title : Option String
  authors : List String
  links : List String
deriving DecidableEq, Repr

/-- Outcome of the fetch-and-parse attempt inside the `try` block of
`get_paper_info`: either some exception was raised (network error,
non-success HTTP status via `raise_for_status`, parsing setup), or a
page was parsed into its list of paper entries. -/
inductive FetchOutcome where
  | exn : FetchOutcome
  | page : List Entry → FetchOutcome
deriving DecidableEq, Repr

/-- Python's `sep.join(parts)`. -/
def pyJoin (sep : String) : List String → String
  | [] => ""
  | [a] => a
  | a :: b :: rest => a ++ sep ++ pyJoin sep (b :: rest)

/-- Whether `pat` occurs as a contiguous sublist of the second list;
Python's `pat in s` on the character level. -/
def hasSubList (pat : List Char) : List Char → Bool
  | [] => pat.isEmpty
  | c :: rest => pat.isPrefixOf (c :: rest) || hasSubList pat rest

/-- Python's substring test `pat in s`. -/
def containsSub (s pat : String) : Bool := hasSubList pat.data s.data

/-- The predicate of the first link search in `get_paper_info`:
`lambda href: href and 'doi.org' in href`. -/
def isDoiLink (h : String) : Bool := containsSub h "doi.org"

/-- The predicate of the second link search in `get_paper_info`:
`lambda href: href and 'dblp.org/rec/' in href`. -/
def isRecLink (h : String) : Bool := containsSub h "dblp.org/rec/"

/-- The link-selection logic of `get_paper_info` (lines 133-142): first
anchor whose href contains `doi.org`, else first anchor whose href
contains `dblp.org/rec/`, else the empty string. -/
def chooseLink (links : List String) : String :=
  match links.find? isDoiLink with
  | some h => h
  | none =>
    match links.find? isRecLink with
    | some h => h
    | none => ""

/-- The per-entry body of the extraction loop in `get_paper_info`:
title defaults to the sentinel `未知标题`, authors are joined with
"; " defaulting to `未知作者`, conference and year come from the
request, the link is chosen by `chooseLink`. -/
def extractEntry (confName : String) (year : Nat) (e : Entry) : Paper :=
  { title := e.title.getD "未知标题"
    authors := if e.authors = [] then "未知作者" else pyJoin "; " e.authors
    conference := confName
    year := Nat.repr year
    link := chooseLink e.links }

/-- `get_paper_info(conf_key, year)` given the fetch outcome. `none`
models the uncaught `KeyError` on an unknown conference key (the dict
access happens before the `try` block); the `try` block returns `[]`
both on an exception and on a page with no matching entries, and
otherwise the extracted list, one record per entry. -/
def get_paper_info (conf_key : String) (year : Nat) (outcome : FetchOutcome) :
    Option (List Paper) :=
  match CONFERENCE_CONFIGS.lookup conf_key with
  | none => none
  | some conf_config =>
    match outcome with
    | FetchOutcome.exn => some []
    | FetchOutcome.page entries =>
      if entries = [] then some []
      else some (entries.map (extractEntry conf_config.name year))

/-- A well-formed entry in the sense of the spec's testable property:
the structural marker matched (it is an `Entry` at all), a title with
non-empty text is present, and at least one author with non-empty name
text is present (every collected author name is non-empty). -/
def wellFormedEntry (e : Entry) : Bool :=
  (match e.title with
   | some t => t ≠ ""
   | none => false)
  && !e.authors.isEmpty && e.authors.all (fun a => a ≠ "")

/-- One `d[k] = d.get(k, 0) + 1` update on an insertion-ordered
association list: increment the count stored under `w`, or append
`(w, 1)` if `w` is not yet a key. -/
def bump : List (String × Nat) → String → List (String × Nat)
  | [], w => [(w, 1)]
  | (k, v) :: rest, w =>
    if k = w then (k, v + 1) :: rest else (k, v) :: bump rest w

/-- `collections.Counter(ws)` as an insertion-ordered association
list. -/
def counter (ws : List String) : List (String × Nat) := ws.foldl bump []

/-- The year aggregation of `plot_paper_trend` (lines 176-180): count
records per `year` field, keys in first-occurrence order. -/
def yearCountOf (papers : List Paper) : List (String × Nat) :=
  papers.foldl (fun acc p => bump acc p.year) []

/-- `plot_paper_trend(papers, conf_name)`: empty dict on empty input,
otherwise the year-count dict; the chart rendering in the `try` block is
pure side effect, and both the `try` and the `except` branch return the
already computed `year_count` (lines 203 and 206). `renderOk` says
whether rendering raised. -/
def plot_paper_trend (renderOk : Bool) (papers : List Paper) :
    List (String × Nat) :=
  if papers = [] then []
  else
    let year_count := yearCountOf papers
    if renderOk then year_count else year_count

/-- The ASCII fragment of the regex class `\w`: alphanumeric or
underscore. -/
def isWordChar (c : Char) : Bool := c.isAlphanum || c = '_'

/-- One character of `re.sub(r'[^\w\s]', ' ', s)`: a character that is
neither a word character nor whitespace becomes a space. -/
def cleanChar (c : Char) : Char :=
  if isWordChar c || c.isWhitespace then c else ' '

/-- Python's `s.split()`: split on whitespace runs, no empty tokens.
`cur` accumulates the current token in reverse. -/
def splitWSAux : List Char → List Char → List (List Char)
  | [], cur => if cur = [] then [] else [cur.reverse]
  | c :: cs, cur =>
    if c.isWhitespace then
      if cur = [] then splitWSAux cs []
      else cur.reverse :: splitWSAux cs []
    else splitWSAux cs (c :: cur)

/-- Python's `s.split()` on a character list. -/
def splitWS (l : List Char) : List (List Char) := splitWSAux l []

/-- The token filter of `extract_keywords`: keep a word iff it is not a
stop word and has more than 2 characters. -/
def keepWord (w : String) : Bool :=
  !STOP_WORDS.contains w && decide (2 < w.length)

/-- `extract_keywords(papers)` (lines 209-231): `{}` on empty input;
otherwise join all titles with spaces, lowercase, replace every
non-word non-space character by a space, split on whitespace, drop stop
words and words of length ≤ 2, and count the remaining tokens. -/
def extract_keywords (papers : List Paper) : List (String × Nat) :=
  if papers = [] then []
  else
    let all_titles := pyJoin " " (papers.map Paper.title)
    let cleaned := (all_titles.data.map Char.toLower).map cleanChar
    let words := (splitWS cleaned).map (fun l => String.mk l)
    counter (words.filter keepWord)

/-- Python's `int(x)` on a real number: truncation toward zero. -/
def pythonInt (q : ℚ) : ℤ := if 0 ≤ q then ⌊q⌋ else ⌈q⌉

/-- `int(y)` on a year key. Modelled for canonical decimal year strings
(digits only); Python additionally accepts surrounding whitespace and a
sign, but such keys never survive the later `year_count[str(y)]` lookup,
so the observable behaviour agrees. -/
def strToNat (s : String) : Option Nat :=
  if s.data ≠ [] ∧ s.data.all Char.isDigit then
    some (s.data.foldl (fun n c => n * 10 + (c.toNat - '0'.toNat)) 0)
  else none

/-- Insert into a sorted list, keeping ascending order. -/
def insertSorted (x : Nat) : List Nat → List Nat
  | [] => [x]
  | y :: ys => if x ≤ y then x :: y :: ys else y :: insertSorted x ys

/-- Python's `sorted` on a list of numbers (insertion sort). -/
def sortNats (l : List Nat) : List Nat := l.foldr insertSorted []

/-- A list comprehension over a fallible element function: `some` of
the image lists if every element succeeds, `none` as soon as one raises
(the whole comprehension is inside the `try` block). -/
def optionMap (f : α → Option β) : List α → Option (List β)
  | [] => some []
  | a :: l =>
    match f a, optionMap f l with
    | some b, some bs => some (b :: bs)
    | _, _ => none

/-- Lines 312-313 of `predict_next_year`:
`years = sorted([int(y) for y in year_count.keys()])` and
`counts = [year_count[str(y)] for y in years]`; `none` models an
exception (unparsable key, or a failed lookup after the
`int`/`str` round trip), which the surrounding `except` catches. -/
def toYearsCounts (yc : List (String × Nat)) :
    Option (List Nat × List Nat) :=
  match optionMap (fun p => strToNat p.1) yc with
  | none => none
  | some ys =>
    let years := sortNats ys
    match optionMap (fun y => yc.lookup (Nat.repr y)) years with
    | none => none
    | some counts => some (years, counts)

/-- The counts as rationals (Python promotes the ints to floats on
division; floats are modelled exactly). -/
def ratCounts (cs : List Nat) : List ℚ := cs.map Nat.cast

/-- The growth-rate loop of `predict_next_year` (lines 316-320): for
each adjacent pair, if the prior count is positive append
`(next - prior) / prior`, otherwise skip the transition. -/
def growthRates : List ℚ → List ℚ
  | a :: b :: rest =>
    (if 0 < a then [(b - a) / a] else []) ++ growthRates (b :: rest)
  | _ => []

/-- Arithmetic mean of a list of rationals (`sum(l) / len(l)`). -/
def mean (l : List ℚ) : ℚ := l.sum / (l.length : ℚ)

/-- `predict_next_year(year_count, conf_name)`: `none` when the dict
has fewer than 2 keys (prediction skipped) or when the `try` block
raises; otherwise `some` of the printed prediction. With no valid
growth rate the prediction is `int(sum(counts) / len(counts))`, else
`int(counts[-1] * (1 + avg_growth_rate))`. Keys of the association
list are assumed distinct, as in a dict. -/
def predict_next_year (yc : List (String × Nat)) : Option ℤ :=
  if yc.length < 2 then none
  else
    match toYearsCounts yc with
    | none => none
    | some (_, cs) =>
      let counts := ratCounts cs
      let rates := growthRates counts
      if rates = [] then
        some (pythonInt (counts.sum / (counts.length : ℚ)))
      else
        some (pythonInt (counts.getLast! * (1 + mean rates)))

/-! ### Helper lemmas: forecaster -/

theorem optionMap_length {f : α → Option β} :
    ∀ {l : List α} {l' : List β}, optionMap f l = some l' → l'.length = l.length := by
  intro l
  induction l with
  | nil => intro l' h; simp only [optionMap, Option.some.injEq] at h; simp [← h]
  | cons a t ih =>
    intro l' h
    simp only [optionMap] at h
    cases hfa : f a with
    | none => rw [hfa] at h; simp at h
    | some b =>
      cases hom : optionMap f t with
      | none => rw [hfa, hom] at h; simp at h
      | some bs =>
        rw [hfa, hom] at h
        simp only [Option.some.injEq] at h
        rw [← h]
        simp [ih hom]

theorem insertSorted_length (x : Nat) :
    ∀ l : List Nat, (insertSorted x l).length = l.length + 1 := by
  intro l
  induction l with
  | nil => rfl
  | cons y ys ih =>
    by_cases h : x ≤ y
    · simp [insertSorted, h]
    · simp [insertSorted, h, ih]

theorem sortNats_length (l : List Nat) : (sortNats l).length = l.length := by
  induction l with
  | nil => rfl
  | cons x xs ih =>
    simp only [sortNats, List.foldr_cons, insertSorted_length, List.length_cons]
    simp only [sortNats] at ih
    omega

theorem toYearsCounts_lengths {yc : List (String × Nat)} {ys cs : List Nat}
    (h : toYearsCounts yc = some (ys, cs)) :
    ys.length = yc.length ∧ cs.length = yc.length := by
  unfold toYearsCounts at h
  cases h1 : optionMap (fun p => strToNat p.1) yc with
  | none => rw [h1] at h; simp at h
  | some zs =>
    rw [h1] at h
    simp only at h
    cases h2 : optionMap (fun y => yc.lookup (Nat.repr y)) (sortNats zs) with
    | none => rw [h2] at h; simp at h
    | some counts =>
      rw [h2] at h
      simp only [Option.some.injEq, Prod.mk.injEq] at h
      obtain ⟨hys, hcs⟩ := h
      have hz : zs.length = yc.length := optionMap_length h1
      have hc : counts.length = (sortNats zs).length := optionMap_length h2
      constructor
      · rw [← hys, sortNats_length, hz]
      · rw [← hcs, hc, sortNats_length, hz]

theorem getLast!_mem [Inhabited α] {l : List α} (h : l ≠ []) : l.getLast! ∈ l := by
  cases l with
  | nil => exact absurd rfl h
  | cons a t =>
    simp only [List.getLast!]
    exact List.getLast_mem _

theorem growthRates_cons_zero (l : List ℚ) :
    growthRates (0 :: l) = growthRates l := by
  cases l with
  | nil => rfl
  | cons b rest => simp [growthRates]

theorem growthRates_neg_one_le :
    ∀ {cs : List ℚ}, (∀ c ∈ cs, 0 ≤ c) → ∀ r ∈ growthRates cs, -1 ≤ r := by
  intro cs
  induction cs with
  | nil => intro _ r hr; simp [growthRates] at hr
  | cons a t ih =>
    intro hc r hr
    cases t with
    | nil => simp [growthRates] at hr
    | cons b rest =>
      simp only [growthRates, List.mem_append] at hr
      rcases hr with hr | hr
      · by_cases ha : 0 < a
        · rw [if_pos ha] at hr
          simp only [List.mem_singleton] at hr
          subst hr
          have hb : (0:ℚ) ≤ b := hc b (by simp)
          rw [le_div_iff₀ ha]
          linarith
        · rw [if_neg ha] at hr; simp at hr
      · exact ih (fun c hcm => hc c (by simp [hcm])) r hr

theorem neg_card_le_sum :
    ∀ {l : List ℚ}, (∀ r ∈ l, -1 ≤ r) → -(l.length : ℚ) ≤ l.sum := by
  intro l
  induction l with
  | nil => intro _; simp
  | cons a t ih =>
    intro h
    have h1 : -1 ≤ a := h a (by simp)
    have h2 := ih (fun r hr => h r (by simp [hr]))
    simp only [List.sum_cons, List.length_cons]
    push_cast
    linarith

theorem neg_one_le_mean {l : List ℚ} (hne : l ≠ []) (h : ∀ r ∈ l, -1 ≤ r) :
    -1 ≤ mean l := by
  have hlen : (0:ℚ) < l.length := by
    have := List.length_pos.2 hne
    exact_mod_cast this
  rw [mean, le_div_iff₀ hlen]
  have := neg_card_le_sum h
  linarith

theorem pythonInt_eq_floor {q : ℚ} (h : 0 ≤ q) : pythonInt q = ⌊q⌋ :=
  if_pos h

theorem ratCounts_nonneg : ∀ {cs : List Nat}, ∀ c ∈ ratCounts cs, (0:ℚ) ≤ c := by
  intro cs
  induction cs with
  | nil => intro c hc; simp [ratCounts] at hc
  | cons n t ih =>
    intro c hc
    simp only [ratCounts, List.map_cons, List.mem_cons] at hc
    rcases hc with rfl | hc
    · exact Nat.cast_nonneg n
    · exact ih c (by simpa [ratCounts] using hc)

theorem predict_eq_branches {yc : List (String × Nat)} {ys cs : List Nat}
    (h2 : 2 ≤ yc.length) (htc : toYearsCounts yc = some (ys, cs)) :
    predict_next_year yc =
      (if growthRates (ratCounts cs) = [] then
        some (pythonInt ((ratCounts cs).sum / ((ratCounts cs).length : ℚ)))
      else
        some (pythonInt
          ((ratCounts cs).getLast! * (1 + mean (growthRates (ratCounts cs)))))) := by
  unfold predict_next_year
  rw [if_neg (by omega), htc]

/-! ### Helper lemmas: counting dictionaries -/

theorem lookup_cons (k a : String) (v : Nat) (rest : List (String × Nat)) :
    (((a, v) :: rest).lookup k) = if k = a then some v else rest.lookup k := by
  by_cases h : k = a
  · subst h; simp [List.lookup]
  · have hb : (k == a) = false := by simp [h]
    simp [List.lookup, hb, h]

theorem lookup_bump (acc : List (String × Nat)) (w k : String) :
    (bump acc w).lookup k =
      if k = w then some ((acc.lookup k).getD 0 + 1) else acc.lookup k := by
  induction acc with
  | nil =>
    by_cases h : k = w
    · subst h; simp [bump, List.lookup]
    · have hb : (k == w) = false := by simp [h]
      simp [bump, List.lookup, hb, h]
  | cons p rest ih =>
    obtain ⟨a, v⟩ := p
    by_cases hk : k = a
    · subst hk
      by_cases haw : k = w
      · subst haw
        simp only [bump, if_pos rfl, lookup_cons, if_pos rfl]
        simp
      · simp only [bump, if_neg (fun h => haw h), lookup_cons, if_pos rfl,
          if_neg haw]
        simp
    · by_cases haw : a = w
      · subst haw
        have hkw : ¬k = a := hk
        simp only [bump, if_pos rfl, lookup_cons, if_neg hk, if_neg hkw]
        simp [lookup_cons, hk]
      · simp only [bump, if_neg haw, lookup_cons, if_neg hk, ih]

theorem lookup_foldl_bump (k : String) :
    ∀ (ws : List String) (acc : List (String × Nat)),
      (ws.foldl bump acc).lookup k =
        if ws.count k = 0 then acc.lookup k
        else some ((acc.lookup k).getD 0 + ws.count k) := by
  intro ws
  induction ws with
  | nil => intro acc; simp
  | cons w ws ih =>
    intro acc
    rw [List.foldl_cons, ih, lookup_bump]
    by_cases hkw : k = w
    · subst hkw
      rw [List.count_cons_self, if_pos rfl]
      by_cases hc : ws.count k = 0
      · rw [if_pos hc, if_neg (by omega), hc]
      · rw [if_neg hc, if_neg (by omega)]
        simp only [Option.getD_some, Option.some.injEq]
        omega
    · have hwk : ¬w = k := fun h => hkw h.symm
      have hcount : (w :: ws).count k = ws.count k := by
        simp [List.count_cons, hwk, hkw]
      rw [if_neg hkw, hcount]

theorem lookup_counter (ws : List String) (k : String) :
    (counter ws).lookup k =
      if ws.count k = 0 then none else some (ws.count k) := by
  rw [counter, lookup_foldl_bump]
  by_cases hc : ws.count k = 0
  · simp [hc]
  · simp [hc]

theorem sum_bump (acc : List (String × Nat)) (w : String) :
    ((bump acc w).map Prod.snd).sum = (acc.map Prod.snd).sum + 1 := by
  induction acc with
  | nil => simp [bump]
  | cons p rest ih =>
    obtain ⟨a, v⟩ := p
    by_cases h : a = w
    · simp [bump, h]
      omega
    · simp [bump, h, ih]
      omega

theorem sum_foldl_bump :
    ∀ (ws : List String) (acc : List (String × Nat)),
      ((ws.foldl bump acc).map Prod.snd).sum =
        (acc.map Prod.snd).sum + ws.length := by
  intro ws
  induction ws with
  | nil => intro acc; simp
  | cons w ws ih =>
    intro acc
    rw [List.foldl_cons, ih, sum_bump, List.length_cons]
    omega

theorem mem_bump {acc : List (String × Nat)} {w : String} :
    ∀ p ∈ bump acc w,
      (0 < p.2 ∧ (p.1 = w ∨ p.1 ∈ acc.map Prod.fst)) ∨ p ∈ acc := by
  induction acc with
  | nil =>
    intro p hp
    simp only [bump] at hp
    rcases List.mem_singleton.1 hp with rfl
    exact Or.inl ⟨Nat.succ_pos 0, Or.inl rfl⟩
  | cons q rest ih =>
    obtain ⟨a, v⟩ := q
    intro p hp
    by_cases h : a = w
    · simp only [bump, if_pos h] at hp
      rcases List.mem_cons.1 hp with rfl | hp
      · exact Or.inl ⟨Nat.succ_pos v, Or.inr (h ▸ by simp)⟩
      · exact Or.inr (List.mem_cons_of_mem _ hp)
    · simp only [bump, if_neg h] at hp
      rcases List.mem_cons.1 hp with rfl | hp
      · exact Or.inr (List.mem_cons_self _ _)
      · rcases ih p hp with ⟨hpos, hkey⟩ | hmem
        · exact Or.inl ⟨hpos, hkey.imp id (fun hk => by simp [hk])⟩
        · exact Or.inr (List.mem_cons_of_mem _ hmem)

theorem mem_foldl_bump {S : List String} :
    ∀ (ws : List String) (acc : List (String × Nat)),
      (∀ q ∈ acc, 0 < q.2 ∧ q.1 ∈ S) → (∀ w ∈ ws, w ∈ S) →
      ∀ p ∈ ws.foldl bump acc, 0 < p.2 ∧ p.1 ∈ S := by
  intro ws
  induction ws with
  | nil => intro acc hacc _ p hp; exact hacc p hp
  | cons w ws ih =>
    intro acc hacc hws p hp
    rw [List.foldl_cons] at hp
    refine ih (bump acc w) ?_ (fun x hx => hws x (by simp [hx])) p hp
    intro q hq
    rcases mem_bump q hq with ⟨hpos, hkey⟩ | hmem
    · refine ⟨hpos, ?_⟩
      rcases hkey with rfl | hk
      · exact hws q.1 (by simp)
      · obtain ⟨r, hr, hr1⟩ := List.mem_map.1 hk
        exact hr1 ▸ (hacc r hr).2
    · exact hacc q hmem

theorem mem_counter {ws : List String} :
    ∀ p ∈ counter ws, 0 < p.2 ∧ p.1 ∈ ws := by
  intro p hp
  exact mem_foldl_bump ws [] (by simp) (fun w hw => hw) p hp

theorem yearCountOf_eq_counter (papers : List Paper) :
    yearCountOf papers = counter (papers.map Paper.year) := by
  rw [yearCountOf, counter, List.foldl_map]

/-! ### Helper lemmas: strings -/

theorem string_eq_empty_iff {s : String} : s = "" ↔ s.data = [] := by
  cases s with
  | mk d =>
    exact ⟨fun h => congrArg String.data h, fun h => congrArg String.mk h⟩

theorem append_ne_empty {s : String} (t : String) (hs : s ≠ "") :
    s ++ t ≠ "" := by
  intro h
  apply hs
  rw [string_eq_empty_iff] at h ⊢
  rw [String.data_append] at h
  exact (List.append_eq_nil.1 h).1

theorem pyJoin_ne_empty (sep : String) :
    ∀ {l : List String}, l ≠ [] → (∀ a ∈ l, a ≠ "") → pyJoin sep l ≠ "" := by
  intro l
  induction l with
  | nil => intro h _; exact absurd rfl h
  | cons a t ih =>
    intro _ ha
    cases t with
    | nil => simpa [pyJoin] using ha a (by simp)
    | cons b r =>
      rw [pyJoin]
      exact append_ne_empty _ (append_ne_empty _ (ha a (by simp)))

theorem toDigitsCore_ne_nil (b : Nat) :
    ∀ (fuel n : Nat) (ds : List Char), ds ≠ [] →
      Nat.toDigitsCore b fuel n ds ≠ [] := by
  intro fuel
  induction fuel with
  | zero => intro n ds h; simpa [Nat.toDigitsCore] using h
  | succ f ih =>
    intro n ds h
    rw [Nat.toDigitsCore]
    by_cases hnb : n / b = 0
    · simp [hnb]
    · simp only [if_neg hnb]
      exact ih (n / b) _ (by simp)

theorem natRepr_ne_empty (n : Nat) : Nat.repr n ≠ "" := by
  rw [Nat.repr, Nat.toDigits]
  intro h
  rw [string_eq_empty_iff] at h
  have hne : Nat.toDigitsCore 10 (n + 1) n [] ≠ [] := by
    rw [Nat.toDigitsCore]
    by_cases hnb : n / 10 = 0
    · simp [hnb]
    · simp only [if_neg hnb]
      exact toDigitsCore_ne_nil 10 n (n / 10) _ (by simp)
  exact hne h

theorem cs_ne_nil_of_toYearsCounts {yc : List (String × Nat)}
    {ys cs : List Nat} (htc : toYearsCounts yc = some (ys, cs))
    (h2 : 2 ≤ yc.length) : cs ≠ [] := by
  intro hnil
  have hlen := (toYearsCounts_lengths htc).2
  rw [hnil] at hlen
  simp at hlen
  omega

theorem growth_value_nonneg {cs : List Nat} (hcs : cs ≠ [])
    (hg : growthRates (ratCounts cs) ≠ []) :
    0 ≤ (ratCounts cs).getLast! * (1 + mean (growthRates (ratCounts cs))) := by
  have hrc : ratCounts cs ≠ [] := by simp [ratCounts, hcs]
  have hlast : 0 ≤ (ratCounts cs).getLast! :=
    ratCounts_nonneg _ (getLast!_mem hrc)
  have hmean : -1 ≤ mean (growthRates (ratCounts cs)) :=
    neg_one_le_mean hg (growthRates_neg_one_le ratCounts_nonneg)
  have h1 : (0:ℚ) ≤ 1 + mean (growthRates (ratCounts cs)) := by linarith
  exact mul_nonneg hlast h1

/-! ### Claim theorems -/

/-- C1: for every Year Count Map with at least 2 distinct years in which at
least one valid growth rate exists, `predict_next_year` predicts
`floor(last_count * (1 + mean(growth_rates)))`, where the growth rates are
the per-adjacent-year rates over the sorted years. -/
theorem predict_growth_path (yc : List (String × Nat)) (ys cs : List Nat)
    (_hnd : (yc.map Prod.fst).Nodup)
    (h2 : 2 ≤ yc.length)
    (htc : toYearsCounts yc = some (ys, cs))
    (hg : growthRates (ratCounts cs) ≠ []) :
    predict_next_year yc =
      some ⌊(ratCounts cs).getLast! *
        (1 + mean (growthRates (ratCounts cs)))⌋ := by
  rw [predict_eq_branches h2 htc, if_neg hg]
  congr 1
  exact pythonInt_eq_floor
    (growth_value_nonneg (cs_ne_nil_of_toYearsCounts htc h2) hg)

/-- Witness for C1: on `{"2020": 100, "2021": 150, "2022": 225}` the growth
rates are [0.5, 0.5], their mean is 0.5, and the prediction is 337. -/
theorem predict_growth_path_witness :
    predict_next_year [("2020", 100), ("2021", 150), ("2022", 225)] =
      some 337 := by
  rw [predict_growth_path [("2020", 100), ("2021", 150), ("2022", 225)]
      [2020, 2021, 2022] [100, 150, 225] (by decide) (by decide) (by decide)
      (by norm_num [growthRates, ratCounts]; simp)]
  have h1 : ratCounts [100, 150, 225] = [(100:ℚ), 150, 225] := by
    norm_num [ratCounts]
  rw [h1]
  have h2 : growthRates [(100:ℚ), 150, 225] = [1/2, 1/2] := by
    norm_num [growthRates]
  rw [h2]
  have h3 : mean [(1:ℚ)/2, 1/2] = 1/2 := by norm_num [mean]
  have h4 : ([(100:ℚ), 150, 225]).getLast! = 225 := by
    simp [List.getLast!, List.getLast]
  rw [h3, h4]
  have h5 : (225:ℚ) * (1 + 1/2) = 337 + 1/2 := by norm_num
  rw [h5]
  have h6 : (⌊(337:ℚ) + 1/2⌋ : ℤ) = 337 := by
    rw [Int.floor_eq_iff]
    constructor <;> norm_num
  rw [h6]

/-- C2: transitions with a zero prior count are skipped by the growth-rate
computation (prepending a zero count changes no rate, so no division by zero
occurs), and when no valid growth rate remains the prediction falls back to
the truncated integer average of all observed counts. -/
theorem predict_zero_guard (yc : List (String × Nat)) (ys cs : List Nat)
    (_hnd : (yc.map Prod.fst).Nodup)
    (h2 : 2 ≤ yc.length)
    (htc : toYearsCounts yc = some (ys, cs))
    (hz : growthRates (ratCounts cs) = []) :
    (∀ l : List ℚ, growthRates (0 :: l) = growthRates l) ∧
    predict_next_year yc =
      some ⌊(ratCounts cs).sum / ((ratCounts cs).length : ℚ)⌋ := by
  refine ⟨growthRates_cons_zero, ?_⟩
  rw [predict_eq_branches h2 htc, if_pos hz]
  congr 1
  exact pythonInt_eq_floor
    (div_nonneg (List.sum_nonneg ratCounts_nonneg) (Nat.cast_nonneg _))

/-- Witness for C2: on `{"2020": 0, "2021": 100}` the single transition is
skipped and the fallback average-count path predicts 50. -/
theorem predict_zero_guard_witness :
    predict_next_year [("2020", 0), ("2021", 100)] = some 50 := by
  rw [(predict_zero_guard [("2020", 0), ("2021", 100)] [2020, 2021] [0, 100]
      (by decide) (by decide) (by decide)
      (by norm_num [growthRates, ratCounts])).2]
  have h1 : ratCounts [0, 100] = [(0:ℚ), 100] := by norm_num [ratCounts]
  rw [h1]
  have h2 : (([(0:ℚ), 100]).sum / ((([(0:ℚ), 100]).length : Nat) : ℚ)) = 50 := by
    norm_num
  rw [h2]
  have h3 : (⌊(50:ℚ)⌋ : ℤ) = 50 := by
    rw [Int.floor_eq_iff]
    constructor <;> norm_num
  rw [h3]

/-- C9: on any Year Count Map with at least 2 distinct years (counts being
naturals, hence nonnegative) the prediction is nonnegative; every computed
growth rate is at least -1, and `int()` truncation agrees with floor on
nonnegative values. -/
theorem predict_nonneg (yc : List (String × Nat)) (ys cs : List Nat)
    (_hnd : (yc.map Prod.fst).Nodup)
    (h2 : 2 ≤ yc.length)
    (htc : toYearsCounts yc = some (ys, cs)) :
    (∀ r ∈ growthRates (ratCounts cs), -1 ≤ r) ∧
    (∀ q : ℚ, 0 ≤ q → pythonInt q = ⌊q⌋) ∧
    ∃ p : ℤ, predict_next_year yc = some p ∧ 0 ≤ p := by
  refine ⟨growthRates_neg_one_le ratCounts_nonneg,
    fun q hq => pythonInt_eq_floor hq, ?_⟩
  rw [predict_eq_branches h2 htc]
  by_cases hz : growthRates (ratCounts cs) = []
  · rw [if_pos hz]
    refine ⟨_, rfl, ?_⟩
    have hq : (0:ℚ) ≤ (ratCounts cs).sum / ((ratCounts cs).length : ℚ) :=
      div_nonneg (List.sum_nonneg ratCounts_nonneg) (Nat.cast_nonneg _)
    rw [pythonInt_eq_floor hq]
    exact Int.le_floor.2 (by exact_mod_cast hq)
  · rw [if_neg hz]
    refine ⟨_, rfl, ?_⟩
    have hq := growth_value_nonneg (cs_ne_nil_of_toYearsCounts htc h2) hz
    rw [pythonInt_eq_floor hq]
    exact Int.le_floor.2 (by exact_mod_cast hq)

/-- Witness for C9: a shrinking series still yields a nonnegative
prediction. -/
theorem predict_nonneg_witness :
    ∃ p : ℤ, predict_next_year [("2020", 100), ("2021", 50)] = some p ∧
      0 ≤ p :=
  (predict_nonneg [("2020", 100), ("2021", 50)] [2020, 2021] [100, 50]
    (by decide) (by decide) (by decide)).2.2

/-- C6: the aggregation step groups records by their `year` field and counts
records per year: a year maps to its number of occurrences (and is absent
exactly when that number is zero), and on records with years
["2021", "2021", "2022"] the resulting map is exactly
{"2021": 2, "2022": 1}. -/
theorem aggregate_counts :
    (∀ (papers : List Paper) (y : String),
        (yearCountOf papers).lookup y =
          if (papers.map Paper.year).count y = 0 then none
          else some ((papers.map Paper.year).count y)) ∧
    plot_paper_trend true
        [⟨"P1", "A", "2021", "X", ""⟩, ⟨"P2", "B", "2021", "X", ""⟩,
         ⟨"P3", "C", "2022", "X", ""⟩] =
      [("2021", 2), ("2022", 1)] := by
  constructor
  · intro papers y
    rw [yearCountOf_eq_counter, lookup_counter]
  · decide

/-- C8: invariants of the aggregation: the counts sum to the number of input
records, every count is at least 1, and every key is the `year` field of
some input record. -/
theorem aggregate_invariants (papers : List Paper) :
    ((yearCountOf papers).map Prod.snd).sum = papers.length ∧
    ∀ p ∈ yearCountOf papers, 1 ≤ p.2 ∧ p.1 ∈ papers.map Paper.year := by
  constructor
  · rw [yearCountOf_eq_counter, counter, sum_foldl_bump]
    simp
  · intro p hp
    rw [yearCountOf_eq_counter] at hp
    exact mem_counter p hp

/-- Witness for C8 at a one-record list. -/
theorem aggregate_invariants_witness :
    1 ≤ (("2021", 1) : String × Nat).2 ∧
      "2021" ∈ ([⟨"P1", "A", "2021", "X", ""⟩] : List Paper).map Paper.year :=
  (aggregate_invariants [⟨"P1", "A", "2021", "X", ""⟩]).2 ("2021", 1)
    (by decide)

/-- C10: for non-empty input, `plot_paper_trend` returns the computed year
count map whether or not chart rendering raised, so the forecaster always
receives the aggregation result. -/
theorem plot_trend_returns_map (papers : List Paper) (renderOk : Bool)
    (h : papers ≠ []) :
    plot_paper_trend renderOk papers = plot_paper_trend true papers ∧
    plot_paper_trend renderOk papers = yearCountOf papers := by
  constructor <;> simp [plot_paper_trend, h]

/-- Witness for C10: the rendering-failure branch still returns the map. -/
theorem plot_trend_returns_map_witness :
    plot_paper_trend false [⟨"P1", "A", "2021", "X", ""⟩] = [("2021", 1)] := by
  rw [(plot_trend_returns_map [⟨"P1", "A", "2021", "X", ""⟩] false
      (by decide)).2]
  decide

/-- C5: the keyword analysis lowercases the joined titles, replaces every
non-word non-space character by a space, splits on whitespace, and counts
only tokens that are neither stop words nor of length ≤ 2: such tokens
never occur as keys of the result, and on the titles
["Deep Learning for X", "deep learning FOR Y"] the tokens "deep" and
"learning" each have frequency 2. -/
theorem extract_keywords_filters :
    (∀ papers : List Paper, papers ≠ [] → ∀ w : String,
        w ∈ STOP_WORDS ∨ w.length ≤ 2 →
        w ∉ (extract_keywords papers).map Prod.fst) ∧
    (extract_keywords
        [⟨"Deep Learning for X", "A", "2021", "X", ""⟩,
         ⟨"deep learning FOR Y", "B", "2021", "X", ""⟩]).lookup "deep" =
      some 2 ∧
    (extract_keywords
        [⟨"Deep Learning for X", "A", "2021", "X", ""⟩,
         ⟨"deep learning FOR Y", "B", "2021", "X", ""⟩]).lookup "learning" =
      some 2 := by
  refine ⟨?_, by decide, by decide⟩
  intro papers hne w hw hmem
  simp only [extract_keywords, if_neg hne] at hmem
  obtain ⟨p, hp, hp1⟩ := List.mem_map.1 hmem
  have hws := (mem_counter p hp).2
  rw [hp1] at hws
  have hkeep := List.of_mem_filter hws
  simp only [keepWord, Bool.and_eq_true, Bool.not_eq_true',
    decide_eq_true_eq] at hkeep
  obtain ⟨hcon, hlen⟩ := hkeep
  rcases hw with hstop | hshort
  · simp at hcon
    exact hcon hstop
  · omega

/-- Witness for C5: the stop word "for" is not a key. -/
theorem extract_keywords_filters_witness :
    "for" ∉ (extract_keywords
        [⟨"Deep Learning for X", "A", "2021", "X", ""⟩,
         ⟨"deep learning FOR Y", "B", "2021", "X", ""⟩]).map Prod.fst :=
  extract_keywords_filters.1 _ (by decide) "for" (Or.inl (by decide))

/-- C4: the link selection returns a DOI-style link whenever the entry has
one (even if a registry-style link is also present), otherwise a
registry-record-style link when present, otherwise the empty string. -/
theorem chooseLink_policy (links : List String) :
    ((∃ h ∈ links, isDoiLink h = true) →
        isDoiLink (chooseLink links) = true ∧ chooseLink links ∈ links) ∧
    ((∀ h ∈ links, isDoiLink h = false) →
      (∃ h ∈ links, isRecLink h = true) →
        isRecLink (chooseLink links) = true ∧ chooseLink links ∈ links) ∧
    ((∀ h ∈ links, isDoiLink h = false) →
      (∀ h ∈ links, isRecLink h = false) → chooseLink links = "") := by
  refine ⟨?_, ?_, ?_⟩
  · intro hex
    cases ha : links.find? isDoiLink with
    | none =>
      obtain ⟨h, hm, hd⟩ := hex
      exact absurd hd (by simpa using List.find?_eq_none.1 ha h hm)
    | some a =>
      simp only [chooseLink, ha]
      exact ⟨List.find?_some ha, List.mem_of_find?_eq_some ha⟩
  · intro hall hex
    have hnone : links.find? isDoiLink = none := by
      rw [List.find?_eq_none]
      intro x hx
      simp [hall x hx]
    cases ha : links.find? isRecLink with
    | none =>
      obtain ⟨h, hm, hd⟩ := hex
      exact absurd hd (by simpa using List.find?_eq_none.1 ha h hm)
    | some a =>
      simp only [chooseLink, hnone, ha]
      exact ⟨List.find?_some ha, List.mem_of_find?_eq_some ha⟩
  · intro hd hr
    have h1 : links.find? isDoiLink = none := by
      rw [List.find?_eq_none]
      intro x hx
      simp [hd x hx]
    have h2 : links.find? isRecLink = none := by
      rw [List.find?_eq_none]
      intro x hx
      simp [hr x hx]
    simp only [chooseLink, h1, h2]

/-- Witness for C4: with both a DOI-style and a registry-style link present,
a DOI-style member link is chosen. -/
theorem chooseLink_policy_witness :
    isDoiLink (chooseLink
        ["https://doi.org/10.1/x", "https://dblp.org/rec/conf/x"]) = true ∧
    chooseLink ["https://doi.org/10.1/x", "https://dblp.org/rec/conf/x"] ∈
      ["https://doi.org/10.1/x", "https://dblp.org/rec/conf/x"] :=
  (chooseLink_policy _).1 ⟨"https://doi.org/10.1/x", by decide, by decide⟩

/-- C7: for every configured conference and year, an exception anywhere in
the fetch produces the empty record list, indistinguishable from a page
with zero paper entries. -/
theorem fetch_failure_empty (ck : String) (cfg : ConfConfig) (year : Nat)
    (hck : CONFERENCE_CONFIGS.lookup ck = some cfg) :
    get_paper_info ck year FetchOutcome.exn = some [] ∧
    get_paper_info ck year (FetchOutcome.page []) = some [] ∧
    get_paper_info ck year FetchOutcome.exn =
      get_paper_info ck year (FetchOutcome.page []) := by
  simp [get_paper_info, hck]

/-- Witness for C7 at the configured conference "aaai". -/
theorem fetch_failure_empty_witness :
    get_paper_info "aaai" 2024 FetchOutcome.exn = some [] :=
  (fetch_failure_empty "aaai"
    ⟨"AAAI", "https://dblp.org/db/conf/aaai/aaai{year}.html", 2020, 2025⟩
    2024 (by decide)).1

/-- C3: a fetched page all of whose K entries are well formed yields exactly
K paper records, each with non-empty title, authors, year and conference
fields. -/
theorem extractor_well_formed (ck : String) (cfg : ConfConfig) (year : Nat)
    (entries : List Entry)
    (hck : CONFERENCE_CONFIGS.lookup ck = some cfg)
    (hwf : ∀ e ∈ entries, wellFormedEntry e = true) :
    ∃ papers,
      get_paper_info ck year (FetchOutcome.page entries) = some papers ∧
      papers.length = entries.length ∧
      ∀ p ∈ papers, p.title ≠ "" ∧ p.authors ≠ "" ∧ p.year ≠ "" ∧
        p.conference ≠ "" := by
  have hname : cfg.name ≠ "" := by
    simp only [CONFERENCE_CONFIGS, List.lookup] at hck
    split at hck
    · injection hck with h
      rw [← h]
      decide
    · split at hck
      · injection hck with h
        rw [← h]
        decide
      · split at hck
        · injection hck with h
          rw [← h]
          decide
        · exact absurd hck (by simp)
  refine ⟨entries.map (extractEntry cfg.name year), ?_, by simp, ?_⟩
  · by_cases he : entries = []
    · subst he
      simp [get_paper_info, hck]
    · simp [get_paper_info, hck, he]
  · intro p hp
    obtain ⟨e, he, rfl⟩ := List.mem_map.1 hp
    have hwfe := hwf e he
    simp only [wellFormedEntry, Bool.and_eq_true, Bool.not_eq_true',
      List.all_eq_true, decide_eq_true_eq] at hwfe
    obtain ⟨⟨ht, hne⟩, hall⟩ := hwfe
    have hnonnil : e.authors ≠ [] := by
      intro h0
      rw [h0] at hne
      simp at hne
    refine ⟨?_, ?_, natRepr_ne_empty year, hname⟩
    · cases et : e.title with
      | none => rw [et] at ht; simp at ht
      | some t =>
        rw [et] at ht
        simp only at ht
        simpa [extractEntry, et] using ht
    · have : pyJoin "; " e.authors ≠ "" :=
        pyJoin_ne_empty "; " hnonnil hall
      simpa [extractEntry, hnonnil] using this

/-- Witness for C3: a single well-formed entry yields one fully populated
record. -/
theorem extractor_well_formed_witness :
    ∃ papers,
      get_paper_info "aaai" 2024
          (FetchOutcome.page [⟨some "T1", ["Alice"], []⟩]) = some papers ∧
      papers.length = ([⟨some "T1", ["Alice"], []⟩] : List Entry).length ∧
      ∀ p ∈ papers, p.title ≠ "" ∧ p.authors ≠ "" ∧ p.year ≠ "" ∧
        p.conference ≠ "" :=
  extractor_well_formed "aaai"
    ⟨"AAAI", "https://dblp.org/db/conf/aaai/aaai{year}.html", 2020, 2025⟩
    2024 [⟨some "T1", ["Alice"], []⟩] (by decide) (by decide)

end DBLP
